import Mathlib

/-!
Shallow embedding of `src/advanced-vector/vector.h`: the `RawMemory<T>` /
`Vector<T>` pair (a from-scratch growable sequence container).

Modelling conventions.

* The observable state of a `Vector<T>` is the list of constructed elements
  `data_[0], …, data_[size_ - 1]` (so the stored `size_` field is the length
  of that list), the capacity `data_.Capacity()` of the owned `RawMemory`
  block, and an identifier `bid` of that block.  A reallocation
  (`RawMemory<T> new_data(n); …; data_.Swap(new_data)`) swaps in a freshly
  allocated block, which we model by a changed `bid`; an operation leaves
  `bid` unchanged exactly when it performs no reallocation, so address
  stability of the elements is expressed as `bid` stability.

* Pure (`Vec.…`) operations give the success semantics, where every element
  copy / move transfers the value unchanged.

* Exception behaviour is modelled separately (`pushBackE`, `emplaceE`):
  allocation and element construction become fallible, an element moved from
  by `std::uninitialized_move_n` is left holding a moved-from residue value,
  and a thrown exception surfaces as `Except.error s` where `s` is the
  observable state of the vector after unwinding.
-/

namespace AdvVector

/-- Observable state of a `Vector<T>` (vector.h, lines 89–467): `elems` is the
list of constructed elements in `data_[0, size_)`, `cap` is
`data_.Capacity()`, and `bid` identifies the currently owned `RawMemory`
block. -/
structure Vec (α : Type) where
  elems : List α
  cap : Nat
  bid : Nat
deriving Repr, DecidableEq

variable {α : Type}

/-- `Size()` (line 411): the stored `size_` field equals the number of
constructed elements. -/
def Vec.size (v : Vec α) : Nat := v.elems.length

/-- The capacity chosen by every reallocating insertion (lines 179, 343, 376):
`size_ == 0 ? 1 : size_ * 2`. -/
def newCapacity (sz : Nat) : Nat := if sz = 0 then 1 else sz * 2

/-- `Vector() = default` (line 126): null buffer, zero capacity, zero size. -/
def defaultCtor (α : Type) : Vec α := ⟨[], 0, 0⟩

/-- `explicit Vector(size_t size)` (lines 133–138): allocates a block of
capacity `size` and value-constructs `size` elements (`d` is the
value-constructed default of `T`).  The freshly allocated block gets a new
identifier. -/
def sizedCtor (n : Nat) (d : α) (fresh : Nat) : Vec α :=
  ⟨List.replicate n d, n, fresh⟩

/-- `Vector(const Vector&)` (lines 140–145): allocates a block of capacity
`other.size_` and copy-constructs the `size_` elements. -/
def copyCtor (src : Vec α) (fresh : Nat) : Vec α :=
  ⟨src.elems, src.size, fresh⟩

/-- Field-wise exchange of buffer, capacity and size, as performed by
`data_.Swap(other.data_); std::swap(size_, other.size_)`. -/
def swapFields (x y : Vec α) : Vec α × Vec α :=
  (⟨y.elems, y.cap, y.bid⟩, ⟨x.elems, x.cap, x.bid⟩)

/-- `Vector(Vector&&)` (lines 244–248): the members are first
default-initialized (null buffer, capacity 0, size 0) and then swapped with
the source, so the new vector steals the block and size of the source and
the source is left with the empty default state. -/
def moveCtor (s : Vec α) : Vec α × Vec α :=
  swapFields (defaultCtor α) s

/-- `Swap(Vector&)` (lines 233–242): no-op when `&data_ == &other.data_`
(same object, rendered by the `same` flag), otherwise exchanges block and
size.  Returns the pair (this, other) after the call. -/
def swapV (same : Bool) (a b : Vec α) : Vec α × Vec α :=
  if same then (a, b) else swapFields a b

/-- `operator=(Vector&&)` (lines 291–298): swaps with the source unless it is
the same object.  Returns the pair (this, rhs) after the call. -/
def moveAssign (same : Bool) (a b : Vec α) : Vec α × Vec α :=
  if same then (a, b) else swapFields a b

/-- `operator=(const Vector&)` (lines 250–289), for a successful call.
`same` renders `this == &rhs`.  When `rhs.size_ > data_.Capacity()` a full
copy is built and swapped in (its block has capacity `rhs.size_` and a fresh
identifier); otherwise the existing block is reused: any elements beyond
`rhs.size_` are destroyed, the overlapping prefix is copy-assigned and the
missing suffix copy-constructed. -/
def copyAssign (same : Bool) (a b : Vec α) (fresh : Nat) : Vec α :=
  if same then a
  else if a.cap < b.size then
    -- Vector rhs_copy(rhs); Swap(rhs_copy);
    ⟨b.elems, b.size, fresh⟩
  else
    -- std::destroy_n(data_ + rhs.size_, size_ - rhs.size_) when size_ > rhs.size_
    if b.size = 0 then
      -- early return with size_ = rhs.size_ = 0; the constructed region was
      -- truncated to rhs.size_ elements by the destroy above
      ⟨a.elems.take b.size, a.cap, a.bid⟩
    else if b.size ≤ a.size then
      -- std::copy over the whole (already truncated) constructed range
      ⟨b.elems, a.cap, a.bid⟩
    else
      -- std::copy over [0, size_), then std::uninitialized_copy of the suffix
      ⟨b.elems.take a.size ++ b.elems.drop a.size, a.cap, a.bid⟩

/-- `Reserve(size_t)` (lines 300–320), success semantics: no-op when
`new_capacity <= data_.Capacity()`; otherwise allocates a new block of the
requested capacity, transfers the elements and swaps the new block in. -/
def Vec.reserve (v : Vec α) (n : Nat) : Vec α :=
  if n ≤ v.cap then v
  else ⟨v.elems, n, v.bid + 1⟩

/-- `Resize(size_t)` (lines 322–336), success semantics: shrinking destroys
the trailing elements, growing reserves and value-constructs the new trailing
elements (`d` is the value-constructed default of `T`). -/
def Vec.resize (v : Vec α) (n : Nat) (d : α) : Vec α :=
  if n < v.size then
    ⟨v.elems.take n, v.cap, v.bid⟩
  else if v.size < n then
    ⟨(v.reserve n).elems ++ List.replicate (n - v.size) d,
      (v.reserve n).cap, (v.reserve n).bid⟩
  else v

/-- `PushBack` (lines 338–402), success semantics; the copy overload
(`const T&`) and the move overload (`T&&`) have identical control flow and
differ only in how the new element is produced from `value`, which a
successful call transfers unchanged.  When `size_ == Capacity()` a block of
`newCapacity size_` is allocated, the elements are transferred, the new
element is constructed at index `size_` of the new block and the blocks are
swapped; otherwise the new element is constructed in place at index
`size_`. -/
def Vec.pushBack (v : Vec α) (x : α) : Vec α :=
  if v.size = v.cap then
    ⟨v.elems ++ [x], newCapacity v.size, v.bid + 1⟩
  else
    ⟨v.elems ++ [x], v.cap, v.bid⟩

/-- `PopBack()` (lines 404–409): destroys the element at `size_ - 1` and
decrements `size_` (precondition `size_ > 0`, checked only by a debug
assertion). -/
def Vec.popBack (v : Vec α) : Vec α :=
  ⟨v.elems.dropLast, v.cap, v.bid⟩

/-- Buffer effect of the in-capacity middle branch of `Emplace`
(lines 159–174), on the constructed region `a` (so `a.length = size_`),
inserting `y` at offset `p < a.length`:
`new (data_ + size_) T(std::move(data_[size_ - 1]))` appends the value of the
last element (the `getLastD` default is never consulted in this branch);
`std::move_backward(begin() + offset, end() - 1, end())` shifts the values at
`[offset, size_ - 1)` one slot right onto `[offset + 1, size_)`;
`data_[offset] = std::move(*tmp_obj)` finally overwrites slot `offset` with
the temporary. -/
def midInsertBuf (a : List α) (p : Nat) (y : α) : List α :=
  let s := a.length
  let b := a ++ [a.getLastD y]
  let c := b.take (p + 1) ++ (b.drop p).take (s - 1 - p) ++ b.drop s
  c.set p y

/-- `Emplace(const_iterator pos, Args&&...)` (lines 147–206), success
semantics; `p = pos - begin()` is the offset.  Returns the state together
with the offset of the returned iterator `begin() + offset`.  With spare
capacity: construct directly at the end when `pos == end()`, otherwise run
the temporary-and-shift middle branch.  Otherwise reallocate: the new element
is constructed at offset `p` of the new block and the prefix `[0, p)` and
suffix `[p, size_)` are transferred around it. -/
def Vec.emplace (v : Vec α) (p : Nat) (x : α) : Vec α × Nat :=
  if v.size < v.cap then
    if p = v.size then
      (⟨v.elems ++ [x], v.cap, v.bid⟩, p)
    else
      (⟨midInsertBuf v.elems p x, v.cap, v.bid⟩, p)
  else
    (⟨v.elems.take p ++ x :: v.elems.drop p, newCapacity v.size, v.bid + 1⟩, p)

/-- `Insert(const_iterator, const T&)` and `Insert(const_iterator, T&&)`
(lines 208–216): both delegate to `Emplace`. -/
def Vec.insertAt (v : Vec α) (p : Nat) (x : α) : Vec α × Nat :=
  v.emplace p x

/-- `EmplaceBack(Args&&...)` (lines 227–231): `Emplace(data_ + size_, …)`,
i.e. emplacing at offset `size_`. -/
def Vec.emplaceBack (v : Vec α) (x : α) : Vec α × Nat :=
  v.emplace v.size x

/-- `Erase(const_iterator pos)` (lines 218–225) with offset
`p = pos - begin()` (precondition `p < size_`):
`std::move(begin() + offset + 1, end(), begin() + offset)` shifts the values
at `(offset, size_)` one slot left (slot `size_ - 1`, a pure source, retains
its value), `std::destroy_at(data_ + (size_ - 1))` shrinks the constructed
region and `size_` is decremented.  Returns the state together with the
offset of the returned iterator `begin() + offset`. -/
def Vec.erase (v : Vec α) (p : Nat) : Vec α × Nat :=
  let s := v.size
  let shifted := (v.elems.take p ++ v.elems.drop (p + 1)) ++ v.elems.drop (s - 1)
  (⟨shifted.take (s - 1), v.cap, v.bid⟩, p)

/-- The container invariant (spec §3): `0 ≤ size ≤ capacity`, with exactly the
elements at positions `[0, size)` constructed — the constructed region is
`elems` itself, so the content of the invariant is `size ≤ cap`. -/
def Inv (v : Vec α) : Prop := v.size ≤ v.cap

instance (v : Vec α) : Decidable (Inv v) := by
  unfold Inv; infer_instance

/-!
Exception model.  Element construction may throw: a copy constructor is a
function `copyC : α → Option α` (`none` = the copy threw), and the
construction of the new element from the `PushBack` / `Emplace` argument is
an `mkNew : Option α` (for the copy overload, the result of copying the
argument; for the move overload, the result of move-constructing from it —
`some` of the argument value whenever `T` is nothrow-move-constructible).
`std::uninitialized_move_n` move-constructs the value of each element into the new
block and leaves every source object in its moved-from state `mv a`; it
cannot throw on the (nothrow-move) path that selects it.  Allocation of a
block for `n` elements succeeds iff `allocOk n`.  The result is
`Except.error s` when the call throws, where `s` is the observable state of
the vector after unwinding (a thrown exception never increments `size_` and
never swaps the new block in). -/

/-- Sequential `std::uninitialized_copy_n` over a whole range: copies each
element in order; the first throwing copy destroys the already-made copies
and rethrows (`none`). -/
def copyAll (copyC : α → Option α) : List α → Option (List α)
  | [] => some []
  | a :: as =>
    match copyC a with
    | none => none
    | some b =>
      match copyAll copyC as with
      | none => none
      | some bs => some (b :: bs)

/-- `PushBack` (lines 338–402) with fallible allocation and construction.
On the reallocation path the code first transfers the old elements into the
new block (moves when `T` is nothrow-move-constructible or not
copy-constructible, copies otherwise) and only then constructs the new
element at index `size_` of the new block.  If that construction throws after
a move transfer, the old block — still owned by the vector, since the swap
never happens — is left holding the moved-from residues. -/
def pushBackE (allocOk : Nat → Bool) (nothrowMove : Bool) (mv : α → α)
    (copyC : α → Option α) (mkNew : Option α) (v : Vec α) :
    Except (Vec α) (Vec α) :=
  if v.size = v.cap then
    if allocOk (newCapacity v.size) then
      if nothrowMove then
        -- std::uninitialized_move_n(data_.GetAddress(), size_, new_data.GetAddress())
        match mkNew with
        | none => .error ⟨v.elems.map mv, v.cap, v.bid⟩
        | some y => .ok ⟨v.elems ++ [y], newCapacity v.size, v.bid + 1⟩
      else
        -- std::uninitialized_copy_n(data_.GetAddress(), size_, new_data.GetAddress())
        match copyAll copyC v.elems with
        | none => .error v
        | some cs =>
          match mkNew with
          | none => .error v
          | some y => .ok ⟨cs ++ [y], newCapacity v.size, v.bid + 1⟩
    else
      -- RawMemory<T> new_data(new_capacity) threw bad_alloc
      .error v
  else
    match mkNew with
    | none => .error v
    | some y => .ok ⟨v.elems ++ [y], v.cap, v.bid⟩

/-- `Emplace` (lines 147–206) with fallible allocation and construction, at
offset `p`.  With spare capacity, the only fallible step modelled is the
construction of the element from `args` (the end-branch placement-new, or the
middle-branch temporary built on the side buffer before the main storage is
touched); the subsequent shifts are move assignments, taken here as
non-throwing.  On the reallocation path the new element is constructed at
offset `p` of the new block *before* any old element is transferred, so a
throwing construction (or a failed allocation) leaves the old block
untouched. -/
def emplaceE (allocOk : Nat → Bool) (nothrowMove : Bool) (mv : α → α)
    (copyC : α → Option α) (mkNew : Option α) (v : Vec α) (p : Nat) :
    Except (Vec α) (Vec α × Nat) :=
  if v.size < v.cap then
    match mkNew with
    | none => .error v
    | some y =>
      if p = v.size then
        .ok (⟨v.elems ++ [y], v.cap, v.bid⟩, p)
      else
        .ok (⟨midInsertBuf v.elems p y, v.cap, v.bid⟩, p)
  else
    if allocOk (newCapacity v.size) then
      match mkNew with
      | none =>
        -- new (new_data + offset) T(std::forward<Args>(args)...) threw:
        -- nothing else has happened, the old block is untouched
        .error v
      | some y =>
        if nothrowMove then
          .ok (⟨v.elems.take p ++ y :: v.elems.drop p,
            newCapacity v.size, v.bid + 1⟩, p)
        else
          match copyAll copyC (v.elems.take p),
              copyAll copyC (v.elems.drop p) with
          | some pre, some suf =>
            .ok (⟨pre ++ y :: suf, newCapacity v.size, v.bid + 1⟩, p)
          | _, _ => .error v
    else
      .error v

/-! Helper lemmas. -/

@[simp]
theorem Vec.size_def (v : Vec α) : v.size = v.elems.length := rfl

/-- The middle branch of `Emplace` (append the last element, shift
`[offset, size_ - 1)` one slot right, overwrite slot `offset` with the
temporary) computes exactly the insertion of `y` at offset `p`. -/
theorem midInsertBuf_eq (a : List α) (p : Nat) (y : α) (hp : p < a.length) :
    midInsertBuf a p y = a.take p ++ y :: a.drop p := by
  have hdp : a.drop p ≠ [] := by
    rw [Ne, List.drop_eq_nil_iff]; omega
  obtain ⟨g, hg⟩ : ∃ g, (a.drop p).getLast? = some g := by
    cases hq : (a.drop p).getLast? with
    | none => exact absurd (List.getLast?_eq_none_iff.mp hq) hdp
    | some g => exact ⟨g, rfl⟩
  have hga : a.getLastD y = g := by
    rw [List.getLastD_eq_getLast?]
    conv_lhs => rw [← List.take_append_drop p a]
    rw [List.getLast?_append_of_ne_nil _ hdp, hg]
    rfl
  have hb_take : (a ++ [g]).take (p + 1) = a.take (p + 1) :=
    List.take_append_of_le_length (by omega)
  have hb_drop : (a ++ [g]).drop p = a.drop p ++ [g] :=
    List.drop_append_of_le_length (by omega)
  have hD : (a.drop p ++ [g]).take (a.length - 1 - p) =
      (a.drop p).take (a.length - 1 - p) :=
    List.take_append_of_le_length (by rw [List.length_drop]; omega)
  have hb_drop_s : (a ++ [g]).drop a.length = [g] := List.drop_left a [g]
  have hXlen : (a.take (p + 1)).length = p + 1 := by
    rw [List.length_take]; omega
  have hset : (a.take (p + 1)).set p y = a.take p ++ [y] := by
    rw [List.take_succ, List.getElem?_eq_getElem hp]
    rw [List.set_append, if_neg (by rw [List.length_take]; omega)]
    have h0 : p - (List.take p a).length = 0 := by
      rw [List.length_take]; omega
    rw [h0]
    rfl
  have hYg : (a.drop p).take (a.length - 1 - p) ++ [g] = a.drop p := by
    have h1 : a.length - 1 - p = (a.drop p).length - 1 := by
      rw [List.length_drop]; omega
    rw [h1, ← List.dropLast_eq_take]
    exact List.dropLast_append_getLast? g hg
  calc midInsertBuf a p y
      = ((a ++ [g]).take (p + 1) ++
          ((a ++ [g]).drop p).take (a.length - 1 - p) ++
          (a ++ [g]).drop a.length).set p y := by
        simp only [midInsertBuf, hga]
    _ = (a.take (p + 1) ++
          (a.drop p).take (a.length - 1 - p) ++ [g]).set p y := by
        rw [hb_take, hb_drop, hD, hb_drop_s]
    _ = (a.take (p + 1) ++ (a.drop p).take (a.length - 1 - p)).set p y ++
          [g] := by
        rw [List.set_append,
          if_pos (by rw [List.length_append, hXlen]; omega)]
    _ = (a.take (p + 1)).set p y ++ (a.drop p).take (a.length - 1 - p) ++
          [g] := by
        rw [List.set_append, if_pos (by rw [hXlen]; omega)]
    _ = (a.take p ++ [y]) ++ ((a.drop p).take (a.length - 1 - p) ++ [g]) := by
        rw [hset, List.append_assoc]
    _ = (a.take p ++ [y]) ++ a.drop p := by rw [hYg]
    _ = a.take p ++ y :: a.drop p := by simp

/-- Content of the buffer after `Erase` at offset `p < size_`. -/
theorem erase_elems (v : Vec α) (p : Nat) (hp : p < v.size) :
    (v.erase p).1.elems = v.elems.take p ++ v.elems.drop (p + 1) := by
  have h1 : (v.elems.take p ++ v.elems.drop (p + 1)).length = v.size - 1 := by
    simp at hp ⊢; omega
  exact List.take_left' h1

/-! Claim theorems. -/

/-- C6.  For every vector and every `n ≤ Capacity()`, `Reserve(n)` is a
no-op: capacity, size, elements and the owned storage block (hence the
addresses of the elements) are all unchanged — the result state is literally
the input state. -/
theorem reserve_noop_within_capacity (v : Vec α) (n : Nat) (h : n ≤ v.cap) :
    v.reserve n = v := by
  unfold Vec.reserve
  simp [h]

/-- Witness for `reserve_noop_within_capacity` at a concrete input. -/
theorem reserve_noop_within_capacity_witness :
    2 ≤ (⟨[5, 6], 3, 0⟩ : Vec Nat).cap ∧
      (⟨[5, 6], 3, 0⟩ : Vec Nat).reserve 2 = ⟨[5, 6], 3, 0⟩ :=
  ⟨by decide, reserve_noop_within_capacity ⟨[5, 6], 3, 0⟩ 2 (by decide)⟩

/-- C3.  For a vector of size `s` and any offset `p ≤ s`, `Emplace` (hence
`Insert`, which delegates to it) yields size `s + 1`, keeps `[0, p)`, places
the new element at index `p`, shifts the former `[p, s)` one slot right, and
returns the position of the new element (offset `p`). -/
theorem emplace_inserts_at_position (v : Vec α) (p : Nat) (x : α)
    (hp : p ≤ v.size) :
    (v.emplace p x).1.elems = v.elems.take p ++ x :: v.elems.drop p ∧
    (v.emplace p x).1.size = v.size + 1 ∧
    (v.emplace p x).2 = p ∧
    v.insertAt p x = v.emplace p x := by
  have helems :
      (v.emplace p x).1.elems = v.elems.take p ++ x :: v.elems.drop p := by
    unfold Vec.emplace
    by_cases h1 : v.size < v.cap
    · rw [if_pos h1]
      by_cases h2 : p = v.size
      · rw [if_pos h2, h2, Vec.size_def]
        simp
      · rw [if_neg h2]
        exact midInsertBuf_eq v.elems p x (by simp at hp h2 ⊢; omega)
    · rw [if_neg h1]
  refine ⟨helems, ?_, ?_, rfl⟩
  · rw [Vec.size_def, helems]
    simp at hp ⊢
    omega
  · unfold Vec.emplace
    by_cases h1 : v.size < v.cap
    · rw [if_pos h1]
      by_cases h2 : p = v.size
      · rw [if_pos h2]
      · rw [if_neg h2]
    · rw [if_neg h1]

/-- Witness for `emplace_inserts_at_position`: the spec example
`v = [1, 2]`, insert `42` before the element `2`. -/
theorem emplace_inserts_at_position_witness :
    1 ≤ (⟨[1, 2], 2, 0⟩ : Vec Nat).size ∧
      ((⟨[1, 2], 2, 0⟩ : Vec Nat).emplace 1 42).1.elems = [1, 42, 2] ∧
      ((⟨[1, 2], 2, 0⟩ : Vec Nat).emplace 1 42).1.size = 3 := by
  have h := emplace_inserts_at_position (⟨[1, 2], 2, 0⟩ : Vec Nat) 1 42
    (by decide)
  exact ⟨by decide, by rw [h.1]; decide, by rw [h.2.1]; decide⟩

/-- C4.  For a non-empty vector of size `s` and any offset `p < s`, `Erase`
at `p` yields size `s - 1`, keeps `[0, p)` and shifts the former `(p, s)` one
slot left. -/
theorem erase_removes_at_position (v : Vec α) (p : Nat) (hp : p < v.size) :
    (v.erase p).1.elems = v.elems.take p ++ v.elems.drop (p + 1) ∧
    (v.erase p).1.size = v.size - 1 := by
  refine ⟨erase_elems v p hp, ?_⟩
  rw [Vec.size_def, erase_elems v p hp]
  simp at hp ⊢
  omega

/-- Witness for `erase_removes_at_position`: the spec example
`v = [1, 42, 2]`, erase the element `1`. -/
theorem erase_removes_at_position_witness :
    0 < (⟨[1, 42, 2], 4, 0⟩ : Vec Nat).size ∧
      ((⟨[1, 42, 2], 4, 0⟩ : Vec Nat).erase 0).1.elems = [42, 2] ∧
      ((⟨[1, 42, 2], 4, 0⟩ : Vec Nat).erase 0).1.size = 2 := by
  have h := erase_removes_at_position (⟨[1, 42, 2], 4, 0⟩ : Vec Nat) 0
    (by decide)
  exact ⟨by decide, by rw [h.1]; decide, by rw [h.2]; decide⟩

/-- C10.  `Erase` at offset `p` returns the iterator `begin() + p`, i.e. the
position of logical index `p` of the resulting vector: when elements followed
the erased one, index `p` of the result holds the element that was at index
`p + 1`; when the last element was erased, the returned offset is the end
position (the new size). -/
theorem erase_returns_following_position (v : Vec α) (p : Nat)
    (hp : p < v.size) :
    (v.erase p).2 = p ∧
    (p + 1 < v.size → ((v.erase p).1.elems)[p]? = v.elems[p + 1]?) ∧
    (p + 1 = v.size → (v.erase p).2 = (v.erase p).1.size) := by
  have hp2 : p < v.elems.length := hp
  refine ⟨rfl, ?_, ?_⟩
  · intro hlt
    rw [erase_elems v p hp]
    have hlen : (v.elems.take p).length ≤ p := by
      rw [List.length_take]; omega
    rw [List.getElem?_append_right hlen]
    have h1 : p - (v.elems.take p).length = 0 := by
      rw [List.length_take]; omega
    rw [h1, List.getElem?_drop]
  · intro heq
    have h := erase_elems v p hp
    show p = (v.erase p).1.size
    rw [Vec.size_def, h, List.length_append, List.length_take,
      List.length_drop]
    simp only [Vec.size_def] at heq
    omega

/-- Witness for `erase_returns_following_position`: erasing in the middle and
at the back of `[1, 42, 2]`. -/
theorem erase_returns_following_position_witness :
    (0 < (⟨[1, 42, 2], 4, 0⟩ : Vec Nat).size ∧
      ((⟨[1, 42, 2], 4, 0⟩ : Vec Nat).erase 0).2 = 0 ∧
      (((⟨[1, 42, 2], 4, 0⟩ : Vec Nat).erase 0).1.elems)[0]? = some 42) ∧
    (2 < (⟨[1, 42, 2], 4, 0⟩ : Vec Nat).size ∧
      ((⟨[1, 42, 2], 4, 0⟩ : Vec Nat).erase 2).2 =
        ((⟨[1, 42, 2], 4, 0⟩ : Vec Nat).erase 2).1.size) := by
  have h0 := erase_returns_following_position (⟨[1, 42, 2], 4, 0⟩ : Vec Nat) 0
    (by decide)
  have h2 := erase_returns_following_position (⟨[1, 42, 2], 4, 0⟩ : Vec Nat) 2
    (by decide)
  exact ⟨⟨by decide, h0.1, by rw [h0.2.1 (by decide)]; decide⟩,
    ⟨by decide, h2.2.2 (by decide)⟩⟩

/-- C7.  Whenever an insertion (`PushBack` in either overload, `EmplaceBack`,
or `Emplace` / `Insert`) hits a vector whose size equals its capacity, the
resulting capacity is exactly `1` if the old size was `0` and exactly twice
the old size otherwise. -/
theorem realloc_growth_policy (v : Vec α) (x : α) (p : Nat)
    (h : v.size = v.cap) :
    (v.pushBack x).cap = (if v.size = 0 then 1 else v.size * 2) ∧
    ((v.emplace p x).1).cap = (if v.size = 0 then 1 else v.size * 2) ∧
    ((v.emplaceBack x).1).cap = (if v.size = 0 then 1 else v.size * 2) := by
  have h1 : ¬ v.size < v.cap := by omega
  refine ⟨?_, ?_, ?_⟩
  · unfold Vec.pushBack
    rw [if_pos h]
    simp [newCapacity]
  · unfold Vec.emplace
    rw [if_neg h1]
    simp [newCapacity]
  · unfold Vec.emplaceBack Vec.emplace
    rw [if_neg h1]
    simp [newCapacity]

/-- Witness for `realloc_growth_policy` on a full vector of size 2 (capacity
doubles to 4) — applied via the theorem at a concrete input. -/
theorem realloc_growth_policy_witness :
    (⟨[1, 2], 2, 0⟩ : Vec Nat).size = (⟨[1, 2], 2, 0⟩ : Vec Nat).cap ∧
      ((⟨[1, 2], 2, 0⟩ : Vec Nat).pushBack 7).cap = 4 ∧
      (((⟨[1, 2], 2, 0⟩ : Vec Nat).emplace 1 7).1).cap = 4 := by
  have h := realloc_growth_policy (⟨[1, 2], 2, 0⟩ : Vec Nat) 7 1 (by decide)
  exact ⟨by decide, by rw [h.1]; decide, by rw [h.2.1]; decide⟩

/-- C8.  Move construction (which never throws: it only swaps the member
fields of a default-initialized vector with the source) leaves the
destination holding exactly the former elements, size and capacity of the
source, copies no element, and leaves the source empty with `Size() == 0`. -/
theorem moveCtor_steals_and_empties_source (s : Vec α) :
    (moveCtor s).1.elems = s.elems ∧
    (moveCtor s).1.cap = s.cap ∧
    (moveCtor s).1.size = s.size ∧
    (moveCtor s).2.size = 0 ∧
    (moveCtor s).2.elems = [] ∧
    (moveCtor s).2.cap = 0 := by
  simp [moveCtor, swapFields, defaultCtor]

/-- C5.  Copy assignment `a = b` (on success) gives `a` exactly the elements
and size that `b` had; when the size of `b` fits in the pre-assignment
capacity of `a`, the capacity and the storage block of `a` are unchanged (the
block is reused, no reallocation); and self-assignment leaves the vector
literally unchanged. -/
theorem copyAssign_copies_and_reuses_block (a b : Vec α) (fresh : Nat) :
    (copyAssign false a b fresh).elems = b.elems ∧
    (copyAssign false a b fresh).size = b.size ∧
    (b.size ≤ a.cap →
      (copyAssign false a b fresh).cap = a.cap ∧
      (copyAssign false a b fresh).bid = a.bid) ∧
    copyAssign true a a fresh = a := by
  have helems : (copyAssign false a b fresh).elems = b.elems := by
    unfold copyAssign
    rw [if_neg (by decide)]
    by_cases h1 : a.cap < b.size
    · rw [if_pos h1]
    · rw [if_neg h1]
      by_cases h2 : b.size = 0
      · rw [if_pos h2]
        have hb : b.elems = [] := List.eq_nil_of_length_eq_zero h2
        simp [h2, hb]
      · rw [if_neg h2]
        by_cases h3 : b.size ≤ a.size
        · rw [if_pos h3]
        · rw [if_neg h3]
          exact List.take_append_drop _ _
  refine ⟨helems, ?_, ?_, ?_⟩
  · rw [Vec.size_def, helems, Vec.size_def]
  · intro hfit
    have h1 : ¬ a.cap < b.size := by omega
    unfold copyAssign
    rw [if_neg (by decide), if_neg h1]
    by_cases h2 : b.size = 0
    · rw [if_pos h2]
      exact ⟨rfl, rfl⟩
    · rw [if_neg h2]
      by_cases h3 : b.size ≤ a.size
      · rw [if_pos h3]
        exact ⟨rfl, rfl⟩
      · rw [if_neg h3]
        exact ⟨rfl, rfl⟩
  · unfold copyAssign
    rw [if_pos rfl]

/-- Witness for `copyAssign_copies_and_reuses_block`: a target of capacity 3
receives a length-2 source without reallocating, and a concrete
self-assignment is the identity. -/
theorem copyAssign_copies_and_reuses_block_witness :
    (copyAssign false ⟨[9, 9, 9], 3, 5⟩ (⟨[1, 2], 2, 7⟩ : Vec Nat) 8).elems
        = [1, 2] ∧
    ((copyAssign false ⟨[9, 9, 9], 3, 5⟩ (⟨[1, 2], 2, 7⟩ : Vec Nat) 8).cap = 3 ∧
      (copyAssign false ⟨[9, 9, 9], 3, 5⟩ (⟨[1, 2], 2, 7⟩ : Vec Nat) 8).bid = 5) ∧
    copyAssign true ⟨[1], 1, 0⟩ (⟨[1], 1, 0⟩ : Vec Nat) 3 = ⟨[1], 1, 0⟩ := by
  have h := copyAssign_copies_and_reuses_block
    (⟨[9, 9, 9], 3, 5⟩ : Vec Nat) ⟨[1, 2], 2, 7⟩ 8
  have h2 := copyAssign_copies_and_reuses_block
    (⟨[1], 1, 0⟩ : Vec Nat) ⟨[1], 1, 0⟩ 3
  exact ⟨h.1, h.2.2.1 (by decide), h2.2.2.2⟩

/-- C9.  Every public operation preserves the invariant
`0 ≤ size ≤ capacity` on the constructed region: every vector produced by a
constructor, and every vector resulting from applying a public operation to
vectors satisfying the invariant (with a valid position where the operation
requires one), satisfies the invariant again. -/
theorem public_ops_preserve_size_le_capacity (v w : Vec α) (x d : α)
    (n p fresh : Nat) (sm : Bool) :
    Inv (defaultCtor α) ∧
    Inv (sizedCtor n d fresh) ∧
    Inv (copyCtor v fresh) ∧
    (Inv v → Inv (moveCtor v).1 ∧ Inv (moveCtor v).2) ∧
    (Inv v → Inv w → Inv (copyAssign sm v w fresh)) ∧
    (Inv v → Inv w → Inv (moveAssign sm v w).1 ∧ Inv (moveAssign sm v w).2) ∧
    (Inv v → Inv (v.reserve n)) ∧
    (Inv v → Inv (v.resize n d)) ∧
    (Inv v → Inv (v.pushBack x)) ∧
    (Inv v → Inv v.popBack) ∧
    (Inv v → p ≤ v.size → Inv (v.emplace p x).1) ∧
    (Inv v → Inv (v.emplaceBack x).1) ∧
    (Inv v → p < v.size → Inv (v.erase p).1) ∧
    (Inv v → Inv w → Inv (swapV sm v w).1 ∧ Inv (swapV sm v w).2) := by
  have hemp : ∀ q, Inv v → q ≤ v.size → Inv (v.emplace q x).1 := by
    intro q hv hq
    unfold Vec.emplace
    by_cases h1 : v.size < v.cap
    · rw [if_pos h1]
      by_cases h2 : q = v.size
      · rw [if_pos h2]
        simp only [Inv, Vec.size_def] at h1 ⊢
        simp
        omega
      · rw [if_neg h2]
        simp only [Inv, Vec.size_def] at h1 hq h2 ⊢
        rw [midInsertBuf_eq v.elems q x (by omega)]
        simp
        omega
    · rw [if_neg h1]
      simp only [Inv, Vec.size_def] at hq ⊢
      by_cases hz : v.elems.length = 0
      · simp [newCapacity, hz]
      · simp [newCapacity, hz]
        omega
  refine ⟨?_, ?_, ?_, ?_, ?_, ?_, ?_, ?_, ?_, ?_, hemp p, ?_, ?_, ?_⟩
  · simp [Inv, defaultCtor]
  · simp [Inv, sizedCtor]
  · simp [Inv, copyCtor]
  · intro hv
    exact ⟨hv, by simp [Inv, moveCtor, swapFields, defaultCtor]⟩
  · intro hv hw
    cases sm with
    | true =>
      unfold copyAssign
      rw [if_pos rfl]
      exact hv
    | false =>
      unfold copyAssign
      rw [if_neg (by decide)]
      by_cases h1 : v.cap < w.size
      · rw [if_pos h1]
        simp [Inv]
      · rw [if_neg h1]
        by_cases h2 : w.size = 0
        · rw [if_pos h2]
          simp only [Inv, Vec.size_def] at hv ⊢
          simp [List.length_take]
          omega
        · rw [if_neg h2]
          by_cases h3 : w.size ≤ v.size
          · rw [if_pos h3]
            simp only [Inv, Vec.size_def] at hv h1 h3 ⊢
            omega
          · rw [if_neg h3]
            simp only [Inv, Vec.size_def] at h1 ⊢
            simp
            omega
  · intro hv hw
    cases sm with
    | true =>
      unfold moveAssign
      rw [if_pos rfl]
      exact ⟨hv, hw⟩
    | false =>
      unfold moveAssign
      rw [if_neg (by decide)]
      exact ⟨hw, hv⟩
  · intro hv
    unfold Vec.reserve
    by_cases h1 : n ≤ v.cap
    · rw [if_pos h1]
      exact hv
    · rw [if_neg h1]
      simp only [Inv, Vec.size_def] at hv ⊢
      omega
  · intro hv
    unfold Vec.resize Vec.reserve
    by_cases h1 : n < v.size
    · rw [if_pos h1]
      simp only [Inv, Vec.size_def] at hv ⊢
      simp [List.length_take]
      omega
    · rw [if_neg h1]
      by_cases h2 : v.size < n
      · rw [if_pos h2]
        by_cases h3 : n ≤ v.cap
        · rw [if_pos h3]
          simp only [Inv, Vec.size_def] at hv h2 h3 ⊢
          simp
          omega
        · rw [if_neg h3]
          simp only [Inv, Vec.size_def] at h2 ⊢
          simp
          omega
      · rw [if_neg h2]
        exact hv
  · intro hv
    unfold Vec.pushBack
    by_cases h1 : v.size = v.cap
    · rw [if_pos h1]
      simp only [Inv, Vec.size_def]
      by_cases hz : v.elems.length = 0
      · simp [newCapacity, hz]
      · simp [newCapacity, hz]
        omega
    · rw [if_neg h1]
      simp only [Inv, Vec.size_def] at hv h1 ⊢
      simp
      omega
  · intro hv
    simp only [Inv, Vec.size_def, Vec.popBack] at hv ⊢
    rw [List.length_dropLast]
    omega
  · intro hv
    exact hemp v.size hv (le_refl _)
  · intro hv hp
    have h := erase_elems v p hp
    unfold Inv
    rw [Vec.size_def, h]
    have hc : (v.erase p).1.cap = v.cap := rfl
    rw [hc]
    simp only [Inv, Vec.size_def] at hv
    simp only [Vec.size_def] at hp
    simp
    omega
  · intro hv hw
    cases sm with
    | true =>
      unfold swapV
      rw [if_pos rfl]
      exact ⟨hv, hw⟩
    | false =>
      unfold swapV
      rw [if_neg (by decide)]
      exact ⟨hw, hv⟩

/-- Witness for `public_ops_preserve_size_le_capacity`: concrete invariant
preservation instances obtained by applying the theorem. -/
theorem public_ops_preserve_size_le_capacity_witness :
    Inv ((⟨[1, 2], 3, 0⟩ : Vec Nat).emplace 1 7).1 ∧
    Inv ((⟨[1, 2], 3, 0⟩ : Vec Nat).pushBack 7) ∧
    Inv (copyAssign false (⟨[1, 2], 3, 0⟩ : Vec Nat) ⟨[4], 2, 1⟩ 9) ∧
    Inv ((⟨[1, 2], 3, 0⟩ : Vec Nat).erase 1).1 := by
  obtain ⟨hd, hs, hc, hm, hca, hma, hr, hrs, hpb, hpo, hem, heb, her, hsw⟩ :=
    public_ops_preserve_size_le_capacity (⟨[1, 2], 3, 0⟩ : Vec Nat)
      (⟨[4], 2, 1⟩ : Vec Nat) 7 0 5 1 9 false
  exact ⟨hem (by decide) (by decide), hpb (by decide),
    hca (by decide) (by decide), her (by decide) (by decide)⟩

/-- C2.  On the reallocation path of `Emplace` / `Insert` (entered exactly
when `size_ == Capacity()`), if the allocation of the new block fails, or if
the construction of the new element — performed at its target offset in the
new block before any old element is transferred or destroyed — throws, the
vector is left identical to before the call: same size, same capacity, same
elements, same storage block. -/
theorem emplaceE_strong_guarantee_on_realloc (allocOk : Nat → Bool)
    (nothrowMove : Bool) (mv : α → α) (copyC : α → Option α)
    (mkNew : Option α) (v : Vec α) (p : Nat) (hfull : v.size = v.cap) :
    (allocOk (newCapacity v.size) = false →
      emplaceE allocOk nothrowMove mv copyC mkNew v p = .error v) ∧
    (mkNew = none →
      emplaceE allocOk nothrowMove mv copyC mkNew v p = .error v) := by
  have h1 : ¬ v.size < v.cap := by omega
  constructor
  · intro ha
    unfold emplaceE
    rw [if_neg h1, if_neg (by simp only [ha]; decide)]
  · intro hm
    subst hm
    unfold emplaceE
    rw [if_neg h1]
    by_cases hb : allocOk (newCapacity v.size) = true
    · rw [if_pos hb]
    · rw [if_neg hb]

/-- Witness for `emplaceE_strong_guarantee_on_realloc`: a full vector
`[1, 2]` with capacity 2, emplacing at offset 1, under a failing allocator
and under a throwing element construction. -/
theorem emplaceE_strong_guarantee_on_realloc_witness :
    emplaceE (fun _ => false) true id some (some 7)
        (⟨[1, 2], 2, 0⟩ : Vec Nat) 1 = .error ⟨[1, 2], 2, 0⟩ ∧
    emplaceE (fun _ => true) true id some (none : Option Nat)
        (⟨[1, 2], 2, 0⟩ : Vec Nat) 1 = .error ⟨[1, 2], 2, 0⟩ := by
  constructor
  · exact (emplaceE_strong_guarantee_on_realloc _ _ _ _ _ _ _ rfl).1 rfl
  · exact (emplaceE_strong_guarantee_on_realloc _ _ _ _ _ _ _ rfl).2 rfl

/-- C1 is refuted as stated: on the copy overload of `PushBack` over a full
vector of a nothrow-move-constructible element type, the code move-transfers
the old elements into the new block (lines 347–349) *before*
copy-constructing the new element at the end of the new block (line 357).
When that copy construction throws, the call unwinds without swapping
blocks, so the vector keeps its size and capacity but its still-owned old
block now holds the moved-from residues of the elements, not their original
values.  Concrete run (first two conjuncts): element type whose moved-from
residue is `0` (`mv := fun _ => 0`), vector `[1]` with
`size == capacity == 1`, allocation succeeds, and the copy construction of
the new element throws (`mkNew = none`): the observable contents after the
failed call are `[0] ≠ [1]`.  Third conjunct: on the copy-transfer path
(element type that is not nothrow-move-constructible) the same failure
leaves the vector unchanged, as the claim demands. -/
theorem pushBackE_copy_overload_not_strong :
    pushBackE (fun _ => true) true (fun _ => 0) (fun a => some a) none
        (⟨[1], 1, 0⟩ : Vec Nat) = .error ⟨[0], 1, 0⟩ ∧
    (⟨[0], 1, 0⟩ : Vec Nat).elems ≠ (⟨[1], 1, 0⟩ : Vec Nat).elems ∧
    pushBackE (fun _ => true) false (fun _ => 0) (fun a => some a) none
        (⟨[1], 1, 0⟩ : Vec Nat) = .error ⟨[1], 1, 0⟩ :=
  ⟨rfl, by decide, rfl⟩

end AdvVector
